import Mathlib

/-!
Verification of the signing orchestration subsystem of c2patool
(file src/commands/sign.rs): output-path planning, manifest assembly,
ingredient loading, extension normalization and the per-input execution
loop, as a shallow embedding in Lean 4.

The embedding models Rust paths abstractly: a path is either a base path
as given on the command line (carrying its Rust file_name component),
the containing directory of another path (Path::parent), the result of
joining a single file-name component onto a directory (Path::join with a
file name, as produced by output.join(src.file_name())), or the result
of joining a relative path onto a base (used for relative ingredient
paths).  A file name is split into stem and extension exactly as Rust
splits it at the final dot; the extension is absent (none), present but
not valid UTF-8 (some none), or a UTF-8 string (some (some s)).
-/

/-- A Rust file-name component: the stem together with the extension as
Rust Path splits it at the final dot. `ext = none` means no extension,
`ext = some none` an extension that is not valid UTF-8, and
`ext = some (some s)` the UTF-8 extension `s`. -/
structure FileName where
  stem : String
  ext : Option (Option String)
deriving DecidableEq, Repr

/-- Abstract model of a Rust PathBuf, closed under the path operations the
signing code performs. -/
inductive RPath where
  /-- A path as given on the command line: whether it is absolute, an
  identifying tag, and its Rust file_name component (none for paths such
  as the filesystem root that have no file-name component). -/
  | base (absolute : Bool) (tag : String) (name : Option FileName)
  /-- The containing directory of a path, as returned by Path::parent. -/
  | dirOf (p : RPath)
  /-- dir.join(name) for a single file-name component. -/
  | join (dir : RPath) (name : FileName)
  /-- base.join(rel) for a relative multi-component path. -/
  | joinP (dir : RPath) (rel : RPath)
deriving DecidableEq, Repr

/-- Rust Path::file_name. The model does not track the file names of
derived containing directories (never queried by the embedded code). -/
def RPath.fileName : RPath → Option FileName
  | .base _ _ n => n
  | .dirOf _ => none
  | .join _ n => some n
  | .joinP _ r => r.fileName

/-- Rust Path::extension, derived from the file-name component. -/
def RPath.extension (p : RPath) : Option (Option String) :=
  p.fileName.bind (fun n => n.ext)

/-- Rust PathBuf::set_extension: replaces the extension of the file-name
component; a path without a file-name component is left unchanged (Rust
returns false and does nothing). -/
def RPath.setExt : RPath → String → RPath
  | .base a t (some n), e => .base a t (some ⟨n.stem, some (some e)⟩)
  | .base a t none, _ => .base a t none
  | .dirOf p, _ => .dirOf p
  | .join d n, e => .join d ⟨n.stem, some (some e)⟩
  | .joinP d r, e => .joinP d (r.setExt e)

/-- Rust Path::is_absolute. A joined relative part never makes a path
absolute. -/
def RPath.isAbs : RPath → Bool
  | .base a _ _ => a
  | .dirOf p => p.isAbs
  | .join d _ => d.isAbs
  | .joinP d _ => d.isAbs

/-- Rust Path::parent: for a join of a single component the parent is the
directory joined onto; any other path with a file-name component has its
containing directory as parent; a path without a file-name component is
modelled as having no parent (the only such paths reaching this
operation in the embedded code are canonicalized roots, for which Rust
also returns None). -/
def RPath.parent : RPath → Option RPath
  | .join d _ => some d
  | p => if p.fileName.isSome then some (.dirOf p) else none

/-- The filesystem as seen by the planning code: existence and
directory-ness probes (Path::exists and Path::is_dir). -/
structure Fs where
  pathExists : RPath → Bool
  isDir : RPath → Bool

/-- ASCII lowercasing of a character, the fragment of Rust
str::to_lowercase exercised by extension strings. -/
def charLower (c : Char) : Char :=
  if 65 ≤ c.toNat ∧ c.toNat ≤ 90 then Char.ofNat (c.toNat + 32) else c

/-- Lowercasing of a string, character by character (model of Rust
str::to_lowercase on extension strings). -/
def strLower (s : String) : String :=
  ⟨s.data.map charLower⟩

/-- The string-level normalization performed by ext_normal: lowercase,
then identify the jpeg/jpg and tiff/tif spellings. -/
def normalize_ext_string (e : String) : String :=
  let l := strLower e
  if l = "jpeg" then "jpg" else if l = "tiff" then "tif" else l

/-- ext_normal from sign.rs: extension().unwrap_or_default()
.to_str().unwrap_or_default().to_lowercase(), then the jpeg/tiff
remapping. An absent or non-UTF-8 extension yields the empty string. -/
def ext_normal (p : RPath) : String :=
  normalize_ext_string
    (match p.extension with
      | some (some s) => s
      | _ => "")

/-- Errors produced by Sign::validate (the bail! messages), plus a
distinguished value for the panic of an unwrap on a path without a
file-name component and for the unreachable! arm. -/
inductive PlanError where
  | mustBeFolder
  | pathsAlreadyExist (n m : Nat)
  | alreadyExistsUseForce
  | outputJoinedExists (p : RPath)
  | extMismatch (input output : String)
  | inputNotFound
  | unreachableState
  | panicked
deriving DecidableEq, Repr

/-- The command-line state of the sign command that the planning and
execution logic reads (Sign struct fields paths, output, sidecar,
force). -/
structure Sign where
  paths : List RPath
  output : RPath
  sidecar : Bool
  force : Bool
deriving DecidableEq, Repr

/-- The pre-existence probe loop inside the (exists, dir, >=2) arm of
Sign::validate: for each input, the per-input destination
output.join(file_name) is probed, then with sidecar enabled the same
destination with its extension replaced by c2pa. Returns the warned
paths in order and, unless a file_name unwrap panics, the number of
pre-existing destinations. -/
def probe_existing (fs : Fs) (out0 : RPath) (sidecar : Bool) :
    List RPath → List RPath × Except PlanError Nat
  | [] => ([], .ok 0)
  | p :: rest =>
    match p.fileName with
    | none => ([], .error .panicked)
    | some name =>
      let dest := RPath.join out0 name
      let scd := RPath.setExt dest "c2pa"
      let w1 := if fs.pathExists dest then [dest] else []
      let w2 := if sidecar && fs.pathExists scd then [scd] else []
      let c12 := (if fs.pathExists dest then 1 else 0)
        + (if sidecar && fs.pathExists scd then 1 else 0)
      ((w1 ++ w2) ++ (probe_existing fs out0 sidecar rest).1,
        Except.map (fun n => c12 + n) (probe_existing fs out0 sidecar rest).2)

/-- Sign::validate from sign.rs: decides whether the output is a
directory, matching on (output.exists(), output.is_dir(), num_outputs)
in the source order of arms. Returns the warned paths (the warn! calls
of the probe loop) together with the result; directory creation in the
(missing, >=2) arm is modelled as succeeding. -/
def Sign.validate (fs : Fs) (s : Sign) : List RPath × Except PlanError Bool :=
  let num_outputs := if s.sidecar then s.paths.length * 2 else s.paths.length
  match fs.pathExists s.output, fs.isDir s.output, num_outputs with
  | true, false, _+2 => ([], .error .mustBeFolder)
  | true, true, _+2 =>
    if !s.force then
      match probe_existing fs s.output s.sidecar s.paths with
      | (warns, .error e) => (warns, .error e)
      | (warns, .ok count) =>
        if count > 0 then (warns, .error (.pathsAlreadyExist count num_outputs))
        else (warns, .ok true)
    else ([], .ok true)
  | true, false, 1 =>
    if !s.force then ([], .error .alreadyExistsUseForce) else ([], .ok false)
  | true, true, 1 =>
    if !s.force then
      match s.paths with
      | [] => ([], .error .panicked)
      | p :: _ =>
        match p.fileName with
        | none => ([], .error .panicked)
        | some name =>
          let out := RPath.join s.output name
          if fs.pathExists out then ([], .error (.outputJoinedExists out))
          else ([], .ok true)
    else ([], .ok true)
  | false, false, _+2 => ([], .ok true)
  | false, false, 1 =>
    if !s.sidecar then
      match s.paths with
      | [] => ([], .error .panicked)
      | p :: _ =>
        let input_ext := ext_normal p
        let output_ext := ext_normal s.output
        if input_ext ≠ output_ext then
          ([], .error (.extMismatch input_ext output_ext))
        else ([], .ok false)
    else ([], .ok false)
  | _, _, 0 => ([], .error .inputNotFound)
  | false, true, _ => ([], .error .unreachableState)

/-- Modelled from the spec (section 4.1): effectiveOutputCount =
inputCount * (sidecarEnabled ? 2 : 1). -/
def effectiveOutputCount (inputCount : Nat) (sidecarEnabled : Bool) : Nat :=
  inputCount * (if sidecarEnabled then 2 else 1)

/-- Modelled from the spec (OutputLayout): the per-input destination,
derived by joining the input file name onto the output directory. The
spec presumes every input has a file name; a missing one is defaulted. -/
def specDest (out p : RPath) : RPath :=
  RPath.join out (p.fileName.getD ⟨"", none⟩)

/-- Modelled from the spec (section 4.1, row two): the sidecar variant of
a per-input destination. -/
def specSidecarDest (out p : RPath) : RPath :=
  RPath.setExt (specDest out p) "c2pa"

/-- Modelled from the spec (section 4.1, row two): probe every per-input
destination (and its sidecar variant if enabled) for pre-existence; any
pre-existing destination raises a warning and is counted. -/
def spec_probe (fs : Fs) (out : RPath) (sidecar : Bool) :
    List RPath → Nat × List RPath
  | [] => (0, [])
  | p :: rest =>
    let d := specDest out p
    let sd := specSidecarDest out p
    let c1 := (if fs.pathExists d then 1 else 0)
      + (if sidecar && fs.pathExists sd then 1 else 0)
    let w1 := (if fs.pathExists d then [d] else [])
      ++ (if sidecar && fs.pathExists sd then [sd] else [])
    (c1 + (spec_probe fs out sidecar rest).1,
      w1 ++ (spec_probe fs out sidecar rest).2)

/-- Modelled from the spec (section 4.1): the decision table of the
OutputPlanner, row by row in the given precedence order, on
(outputExists, outputIsDirectory, effectiveOutputCount). Rows that the
spec declares impossible (a single-destination row reached with a number
of inputs other than one, and a missing output reported as a directory)
are internal invariant violations. -/
def spec_plan (fs : Fs) (s : Sign) : List RPath × Except PlanError Bool :=
  let n := effectiveOutputCount s.paths.length s.sidecar
  match fs.pathExists s.output, fs.isDir s.output, n with
  | true, false, _+2 => ([], .error .mustBeFolder)
  | true, true, _+2 =>
    if s.force then ([], .ok true)
    else
      let c := (spec_probe fs s.output s.sidecar s.paths).1
      let w := (spec_probe fs s.output s.sidecar s.paths).2
      if c > 0 then (w, .error (.pathsAlreadyExist c n)) else (w, .ok true)
  | true, false, 1 =>
    if s.force then ([], .ok false) else ([], .error .alreadyExistsUseForce)
  | true, true, 1 =>
    match s.paths with
    | [p] =>
      if s.force then ([], .ok true)
      else
        let d := specDest s.output p
        if fs.pathExists d then ([], .error (.outputJoinedExists d))
        else ([], .ok true)
    | _ => ([], .error .unreachableState)
  | false, false, _+2 => ([], .ok true)
  | false, false, 1 =>
    match s.paths with
    | [p] =>
      if s.sidecar then ([], .ok false)
      else
        let ie := ext_normal p
        let oe := ext_normal s.output
        if ie = oe then ([], .ok false)
        else ([], .error (.extMismatch ie oe))
    | _ => ([], .error .unreachableState)
  | _, _, 0 => ([], .error .inputNotFound)
  | false, true, _ => ([], .error .unreachableState)

/-- Errors surfacing from Sign::execute: a fatal planning error, failure
of trust-settings or verify-settings loading, the final aggregate
failure (failed/total counts of the bail! message), and the panic of the
file_name unwrap in the destination computation. -/
inductive ExecError where
  | plan (e : PlanError)
  | trustFailed
  | settingsFailed
  | aggregate (failed total : Nat)
  | panicked
deriving DecidableEq, Repr

/-- The per-input destination computation at the top of the execute loop:
join the unwrapped file name onto the output directory when the output
is a directory, else use the output path verbatim. The unwrap on a path
without a file-name component is the panic branch. -/
def dest_for (output : RPath) (is_output_dir : Bool) (src : RPath) :
    Except ExecError RPath :=
  if is_output_dir then
    match src.fileName with
    | none => .error .panicked
    | some n => .ok (RPath.join output n)
  else .ok output

/-- The loop body of Sign::execute over the inputs: each input is signed
once, in order; a signing failure is logged with the offending path and
accumulated; only the unwrap panic aborts the loop. Returns the list of
(source, destination) signing attempts in order and the error log in
order. -/
def sign_loop (signF : RPath → RPath → Except String Unit) (output : RPath)
    (is_output_dir : Bool) :
    List RPath → Except ExecError (List (RPath × RPath) × List (RPath × String))
  | [] => .ok ([], [])
  | src :: rest =>
    match dest_for output is_output_dir src with
    | .error e => .error e
    | .ok dst =>
      match sign_loop signF output is_output_dir rest with
      | .error e => .error e
      | .ok (att, errs) =>
        match signF src dst with
        | .error msg => .ok ((src, dst) :: att, (src, msg) :: errs)
        | .ok _ => .ok ((src, dst) :: att, errs)

/-- The environment of Sign::execute: the filesystem, the outcome of
trust-settings loading and verify-settings loading, and the per-input
outcome of Sign::sign_file. -/
structure ExecEnv where
  fs : Fs
  trustOk : Bool
  settingsOk : Bool
  signFile : RPath → RPath → Except String Unit

/-- Sign::execute from sign.rs: validate once (a planning failure is
fatal), load trust settings and verify settings, then sign every input
in declaration order, accumulating per-input failures; afterwards fail
with the failed/total aggregate if any input failed, else succeed. -/
def Sign.execute (env : ExecEnv) (s : Sign) : Except ExecError Unit :=
  match (Sign.validate env.fs s).2 with
  | .error e => .error (.plan e)
  | .ok is_output_dir =>
    if env.trustOk then
      if env.settingsOk then
        match sign_loop env.signFile s.output is_output_dir s.paths with
        | .error e => .error e
        | .ok (_, errs) =>
          if errs.isEmpty then .ok ()
          else .error (.aggregate errs.length s.paths.length)
      else .error .settingsFailed
    else .error .trustFailed

/-- The ingredient interface of the provenance library, at the boundary
the spec draws: an identity, the embedded manifest data of the
referenced asset if any, and the base path used to resolve relative
resources. -/
structure Ingredient where
  tag : String
  manifestData : Option String
  basePath : Option RPath
deriving DecidableEq, Repr

/-- The embedding mode of an assembled manifest: the default embedded
mode, a sidecar-only manifest, a remote manifest referencing a URL, or
an embedded manifest carrying a remote reference URL. -/
inductive EmbedMode where
  | embedded
  | sidecarOnly
  | remote (url : String)
  | embeddedWithRemote (url : String)
deriving DecidableEq, Repr

/-- The manifest interface of the provenance library at the boundary the
spec draws (section 3): generator string, optional parent reference,
ingredient list, resource base path and embedding mode. -/
structure Manifest where
  claim_generator : String
  parent : Option Ingredient
  ingredients : List Ingredient
  basePath : Option RPath
  embedMode : EmbedMode
deriving DecidableEq, Repr

/-- Manifest::set_parent of the library boundary: records the ingredient
as the parent. -/
def Manifest.set_parent (m : Manifest) (i : Ingredient) : Manifest :=
  { m with parent := some i }

/-- Manifest::add_ingredient of the library boundary: appends to the
ingredient list, preserving declaration order. -/
def Manifest.add_ingredient (m : Manifest) (i : Ingredient) : Manifest :=
  { m with ingredients := m.ingredients ++ [i] }

/-- Manifest::with_base_path of the library boundary, modelled as
recording the base path. -/
def Manifest.with_base_path (m : Manifest) (b : RPath) : Manifest :=
  { m with basePath := some b }

/-- The manifest definition source: a local file path or a network URL
(the clap group makes these mutually exclusive with exactly one
present). -/
inductive InputSource where
  | path (p : RPath)
  | url (u : String)
deriving DecidableEq, Repr

/-- One entry of the ingredients array of an ExtendedManifest: an inline
structured ingredient or a path reference (the untagged serde union). -/
inductive IngredientSource where
  | ingredient (i : Ingredient)
  | path (p : RPath)
deriving DecidableEq, Repr

/-- The signing configuration parsed from the same JSON document as the
manifest definition; only its base path matters to the assembly logic. -/
structure SignConfig where
  basePath : Option RPath
deriving DecidableEq, Repr

/-- ExtendedManifest from sign.rs: the flattened library manifest plus
the optional polymorphic ingredients array. -/
structure ExtendedManifest where
  manifest : Manifest
  ingredients : Option (List IngredientSource)
deriving DecidableEq, Repr

/-- The environment of Sign::sign_file: the tool generator tag
(name/version from the build), resolution of the manifest definition
document, the two parses of that document, path canonicalization, the
current working directory, the two ways of loading an ingredient
(deserializing a JSON file, inspecting an asset file), and the embed
operation of the library. Every fallible collaborator returns a result
value. -/
structure SignEnv where
  toolGenerator : String
  resolve : InputSource → Except String String
  parseSignConfig : String → Except String SignConfig
  parseManifest : String → Except String ExtendedManifest
  canonicalize : RPath → Except String RPath
  cwd : RPath
  readJsonIngredient : RPath → Except String Ingredient
  ingredientFromFile : RPath → Except String Ingredient
  embed : Manifest → RPath → RPath → Except String Unit

/-- load_ingredient from sign.rs: a path with extension json is
deserialized from the file and its resource base path set to the
containing directory; any other path is inspected as an asset file.
Failures of either branch propagate as errors. -/
def load_ingredient (env : SignEnv) (path : RPath) : Except String Ingredient :=
  if path.extension = some (some "json") then
    match env.readJsonIngredient path with
    | .error e => .error e
    | .ok ingredient =>
      match path.parent with
      | some b => .ok { ingredient with basePath := some b }
      | none => .ok ingredient
  else env.ingredientFromFile path

/-- The ingredient resolution loop of sign_file: an inline ingredient has
its base path set to the manifest base path and is attached; a path
reference is joined onto the base path when relative and loaded via
load_ingredient. Order is preserved. -/
def resolve_ingredients (env : SignEnv) (base_path : RPath) :
    Manifest → List IngredientSource → Except String Manifest
  | m, [] => .ok m
  | m, .ingredient i :: rest =>
    resolve_ingredients env base_path
      (m.add_ingredient { i with basePath := some base_path }) rest
  | m, .path p :: rest =>
    let p2 := if p.isAbs then p else RPath.joinP base_path p
    match load_ingredient env p2 with
    | .error e => .error e
    | .ok ing => resolve_ingredients env base_path (m.add_ingredient ing) rest

/-- The embedding-mode selection at the end of sign_file: a local-file
definition with sidecar sets a sidecar manifest; a URL definition sets a
remote manifest (sidecar) or an embedded manifest with a remote
reference (no sidecar); a local-file definition without sidecar makes no
call. -/
def apply_embed_mode (source : InputSource) (sidecar : Bool) (m : Manifest) :
    Manifest :=
  match source with
  | .path _ => if sidecar then { m with embedMode := .sidecarOnly } else m
  | .url u =>
    if sidecar then { m with embedMode := .remote u }
    else { m with embedMode := .embeddedWithRemote u }

/-- Rust str::starts_with for a string pattern, modelled structurally on
the character list (so that it evaluates definitionally). -/
def starts_with (s pre : String) : Bool :=
  pre.data.isPrefixOf s.data

/-- The base-path computation of sign_file: the parent of the
canonicalized definition path when the definition came from a local
file (the context error when the canonicalized path has no parent),
else the current working directory. -/
def compute_base_path (env : SignEnv) (source : InputSource) :
    Except String RPath :=
  match source with
  | .path mp =>
    match env.canonicalize mp with
    | .error e => .error e
    | .ok c =>
      match c.parent with
      | some b => .ok b
      | none => .error "Cannot find manifest parent path"
  | .url _ => .ok env.cwd

/-- The ingredient-resolution step of sign_file: nothing when no
ingredients array was declared, else the resolution loop. -/
def ingredients_step (env : SignEnv) (base_path : RPath) (m : Manifest) :
    Option (List IngredientSource) → Except String Manifest
  | none => .ok m
  | some srcs => resolve_ingredients env base_path m srcs

/-- The explicit-parent step of sign_file: when a parent path was given,
load it as an ingredient and set it as the parent. -/
def explicit_parent_step (env : SignEnv) (parentOpt : Option RPath)
    (m : Manifest) : Except String Manifest :=
  match parentOpt with
  | some pp =>
    match load_ingredient env pp with
    | .error e => .error e
    | .ok ing => .ok (m.set_parent ing)
  | none => .ok m

/-- The implicit-parent step of sign_file: when no parent is set, inspect
the source asset; if it carries manifest data, set it as the parent. -/
def implicit_parent_step (env : SignEnv) (src : RPath) (m : Manifest) :
    Except String Manifest :=
  if m.parent.isNone then
    match env.ingredientFromFile src with
    | .error e => .error e
    | .ok si => .ok (if si.manifestData.isSome then m.set_parent si else m)
  else .ok m

/-- The manifest-assembly part of Sign::sign_file (everything before
signer selection): resolve the definition document, parse the signing
configuration and the extended manifest from it, rewrite the generator,
compute the base path, apply it, resolve the declared ingredients, set
the explicit parent when given, infer the source asset as implicit
parent when it carries manifest data and no parent is set, and select
the embedding mode. -/
def assemble_manifest (env : SignEnv) (source : InputSource) (sidecar : Bool)
    (parentOpt : Option RPath) (src : RPath) : Except String Manifest :=
  match env.resolve source with
  | .error e => .error e
  | .ok json =>
  match env.parseSignConfig json with
  | .error e => .error e
  | .ok _sign_config =>
  match env.parseManifest json with
  | .error e => .error e
  | .ok ext_manifest =>
  let m0 := ext_manifest.manifest
  let m1 := { m0 with claim_generator :=
    if (starts_with m0.claim_generator "c2pa/") then env.toolGenerator
    else m0.claim_generator ++ " " ++ env.toolGenerator }
  match compute_base_path env source with
  | .error e => .error e
  | .ok base_path =>
  let m2 := m1.with_base_path base_path
  match ingredients_step env base_path m2 ext_manifest.ingredients with
  | .error e => .error e
  | .ok m3 =>
  match explicit_parent_step env parentOpt m3 with
  | .error e => .error e
  | .ok m4 =>
  match implicit_parent_step env src m4 with
  | .error e => .error e
  | .ok m5 =>
  .ok (apply_embed_mode source sidecar m5)

/-- Sign::sign_file: assemble the manifest, then embed it into the source
asset at the destination (signer construction and the embed operation
are delegated to the library boundary through the environment). -/
def sign_file (env : SignEnv) (source : InputSource) (sidecar : Bool)
    (parentOpt : Option RPath) (src dst : RPath) : Except String Unit :=
  match assemble_manifest env source sidecar parentOpt src with
  | .error e => .error e
  | .ok m => env.embed m src dst

theorem char_toNat_ofNat_valid (n : Nat) (h : n.isValidChar) :
    (Char.ofNat n).toNat = n := by
  rw [Char.ofNat, dif_pos h]
  rfl

theorem charLower_idem (c : Char) : charLower (charLower c) = charLower c := by
  by_cases h : 65 ≤ c.toNat ∧ c.toNat ≤ 90
  · have hv : (c.toNat + 32).isValidChar := Or.inl (by omega)
    have ht : (Char.ofNat (c.toNat + 32)).toNat = c.toNat + 32 :=
      char_toNat_ofNat_valid _ hv
    have hc : charLower c = Char.ofNat (c.toNat + 32) := by
      rw [charLower, if_pos h]
    rw [hc, charLower, ht, if_neg (by omega)]
  · have hc : charLower c = c := by rw [charLower, if_neg h]
    rw [hc, hc]

theorem strLower_idem (s : String) : strLower (strLower s) = strLower s := by
  refine congrArg String.mk ?_
  show (s.data.map charLower).map charLower = s.data.map charLower
  rw [List.map_map]
  exact List.map_congr_left (fun a _ => charLower_idem a)

theorem normalize_ext_string_idem (s : String) :
    normalize_ext_string (normalize_ext_string s) = normalize_ext_string s := by
  by_cases h1 : strLower s = "jpeg"
  · have hc : normalize_ext_string s = "jpg" := by
      rw [normalize_ext_string, if_pos h1]
    rw [hc]
    rfl
  · by_cases h2 : strLower s = "tiff"
    · have hc : normalize_ext_string s = "tif" := by
        rw [normalize_ext_string, if_neg h1, if_pos h2]
      rw [hc]
      rfl
    · have hc : normalize_ext_string s = strLower s := by
        rw [normalize_ext_string, if_neg h1, if_neg h2]
      rw [hc, normalize_ext_string, strLower_idem, if_neg h1, if_neg h2]

theorem extension_setExt (p : RPath) (e : String) :
    (p.setExt e).extension =
      if p.fileName.isSome then some (some e) else p.extension := by
  induction p with
  | base a t n => cases n <;> rfl
  | dirOf q => rfl
  | join d n => rfl
  | joinP d r ih1 ih2 =>
    show (r.setExt e).extension = _
    rw [ih2]
    rfl

theorem normalize_ext_string_congr {s t : String} (h : strLower s = strLower t) :
    normalize_ext_string s = normalize_ext_string t := by
  rw [normalize_ext_string, normalize_ext_string, h]

/-- C6: extension normalization is idempotent, case-insensitive, and
identifies the jpeg/jpg and tiff/tif spellings: for every path,
ext_normal is unchanged by changing only the case of the extension
(extensions with equal lowercasings normalize equally); the string-level
normalization applied to an already-normalized extension changes
nothing, hence re-normalizing the extension of a path changes nothing;
and concretely A.JPEG and a.jpg both normalize to jpg while x.TIFF
normalizes to tif. -/
theorem ext_normal_idempotent_case_insensitive :
    (∀ (p : RPath) (s t : String), strLower s = strLower t →
        ext_normal (p.setExt s) = ext_normal (p.setExt t))
    ∧ (∀ s : String,
        normalize_ext_string (normalize_ext_string s) = normalize_ext_string s)
    ∧ (∀ p : RPath, ext_normal (p.setExt (ext_normal p)) = ext_normal p)
    ∧ ext_normal (.base false "A.JPEG" (some ⟨"A", some (some "JPEG")⟩)) = "jpg"
    ∧ ext_normal (.base false "a.jpg" (some ⟨"a", some (some "jpg")⟩)) = "jpg"
    ∧ ext_normal (.base false "x.TIFF" (some ⟨"x", some (some "TIFF")⟩)) = "tif" := by
  refine ⟨?_, normalize_ext_string_idem, ?_, rfl, rfl, rfl⟩
  · intro p s t h
    rw [ext_normal, ext_normal, extension_setExt, extension_setExt]
    cases hp : p.fileName.isSome
    · rw [if_neg (by simp [hp]), if_neg (by simp [hp])]
    · rw [if_pos (by simp [hp]), if_pos (by simp [hp])]
      exact normalize_ext_string_congr h
  · intro p
    rw [ext_normal, extension_setExt]
    cases hp : p.fileName.isSome
    · rw [if_neg (by simp [hp])]
      rfl
    · rw [if_pos (by simp [hp])]
      show normalize_ext_string (ext_normal p) = _
      rw [ext_normal, normalize_ext_string_idem]

/-- Witness for C6: the case-insensitivity conjunct applied at the
concrete extensions JPEG and jpeg. -/
theorem ext_normal_idempotent_case_insensitive_witness :
    strLower "JPEG" = strLower "jpeg"
    ∧ ext_normal ((RPath.base false "A.JPEG"
          (some ⟨"A", some (some "JPEG")⟩)).setExt "JPEG")
        = ext_normal ((RPath.base false "A.JPEG"
          (some ⟨"A", some (some "JPEG")⟩)).setExt "jpeg") :=
  ⟨rfl, ext_normal_idempotent_case_insensitive.1
      (RPath.base false "A.JPEG" (some ⟨"A", some (some "JPEG")⟩))
      "JPEG" "jpeg" rfl⟩

theorem ext_normal_eq_empty {q : RPath}
    (h : q.extension = none ∨ q.extension = some none) : ext_normal q = "" := by
  rcases h with h | h <;> rw [ext_normal, h] <;> rfl

/-- C10: ext_normal returns the empty string for every path whose
extension is absent or not valid UTF-8; consequently, for a single input
and a missing output where both paths are extensionless and sidecar is
disabled, the extension-match check compares two empty strings, passes,
and planning succeeds with the output treated as a file. -/
theorem ext_normal_empty_default_and_extensionless_plan :
    (∀ q : RPath, (q.extension = none ∨ q.extension = some none) →
        ext_normal q = "")
    ∧ (∀ (fs : Fs) (p out : RPath) (force : Bool),
        fs.pathExists out = false → fs.isDir out = false →
        p.extension = none → out.extension = none →
        Sign.validate fs ⟨[p], out, false, force⟩ = ([], .ok false)) := by
  refine ⟨fun q h => ext_normal_eq_empty h, ?_⟩
  intro fs p out force hE hD hp hout
  have h1 : ext_normal p = "" := ext_normal_eq_empty (Or.inl hp)
  have h2 : ext_normal out = "" := ext_normal_eq_empty (Or.inl hout)
  simp [Sign.validate, hE, hD, h1, h2]

/-- Shared concrete fixtures for witnesses: an empty filesystem, a
filesystem on which every path exists as a directory, and some concrete
paths. -/
def exFsEmpty : Fs := ⟨fun _ => false, fun _ => false⟩

/-- A filesystem on which every probe answers true. -/
def exFsFull : Fs := ⟨fun _ => true, fun _ => true⟩

/-- A concrete input path photo.jpg. -/
def exIn : RPath := .base false "in" (some ⟨"photo", some (some "jpg")⟩)

/-- A concrete output file path out.jpg. -/
def exOut : RPath := .base false "out" (some ⟨"out", some (some "jpg")⟩)

/-- A concrete output directory path. -/
def exOutDir : RPath := .base false "outdir" (some ⟨"outdir", none⟩)

/-- A concrete path with no file-name component, like the root "/". -/
def exNoName : RPath := .base true "root" none

/-- A concrete extensionless input path. -/
def exInNoExt : RPath := .base false "in" (some ⟨"input", none⟩)

/-- A concrete extensionless output path. -/
def exOutNoExt : RPath := .base false "out" (some ⟨"out", none⟩)

/-- Witness for C10: the planning conjunct applied at concrete
extensionless input and output on an empty filesystem. -/
theorem ext_normal_empty_default_and_extensionless_plan_witness :
    exFsEmpty.pathExists exOutNoExt = false
    ∧ (RPath.extension exInNoExt = none ∧ RPath.extension exOutNoExt = none)
    ∧ Sign.validate exFsEmpty ⟨[exInNoExt], exOutNoExt, false, false⟩
        = ([], .ok false) :=
  ⟨rfl, ⟨rfl, rfl⟩,
    ext_normal_empty_default_and_extensionless_plan.2
      exFsEmpty exInNoExt exOutNoExt false rfl rfl rfl rfl⟩

/-- C9: in the pre-existence probe of an existing directory output
without force, with sidecar enabled, the probed sidecar destination is
the directory-joined input file name with its final extension replaced
by c2pa (img.jpg is probed as img.c2pa, not img.jpg.c2pa), and the
embedded and sidecar destinations each contribute one to the
pre-existing count of the already-exist failure. -/
theorem sidecar_probe_replaces_final_extension (fs : Fs) (out : RPath)
    (st : String) (oe : Option (Option String))
    (he : fs.pathExists out = true) (hd : fs.isDir out = true)
    (h1 : fs.pathExists (RPath.join out ⟨st, oe⟩) = true)
    (h2 : fs.pathExists (RPath.join out ⟨st, some (some "c2pa")⟩) = true) :
    RPath.setExt (RPath.join out ⟨st, oe⟩) "c2pa"
      = RPath.join out ⟨st, some (some "c2pa")⟩
    ∧ probe_existing fs out true [.base false "input" (some ⟨st, oe⟩)]
        = ([RPath.join out ⟨st, oe⟩, RPath.join out ⟨st, some (some "c2pa")⟩],
            .ok 2)
    ∧ Sign.validate fs ⟨[.base false "input" (some ⟨st, oe⟩)], out, true, false⟩
        = ([RPath.join out ⟨st, oe⟩, RPath.join out ⟨st, some (some "c2pa")⟩],
            .error (.pathsAlreadyExist 2 2))
    ∧ RPath.setExt (RPath.join out ⟨"img", some (some "jpg")⟩) "c2pa"
        ≠ RPath.join out ⟨"img.jpg", some (some "c2pa")⟩ := by
  refine ⟨rfl, ?_, ?_, ?_⟩
  · simp [probe_existing, RPath.fileName, RPath.setExt, h1, h2, Except.map]
  · simp [Sign.validate, he, hd, probe_existing, RPath.fileName, RPath.setExt,
      h1, h2, Except.map]
  · simp [RPath.setExt, RPath.join.injEq, FileName.mk.injEq]

/-- Witness for C9: the probe on a filesystem where everything exists,
with input file name img.jpg. -/
theorem sidecar_probe_replaces_final_extension_witness :
    exFsFull.pathExists exOutDir = true
    ∧ Sign.validate exFsFull
        ⟨[.base false "input" (some ⟨"img", some (some "jpg")⟩)],
          exOutDir, true, false⟩
      = ([RPath.join exOutDir ⟨"img", some (some "jpg")⟩,
          RPath.join exOutDir ⟨"img", some (some "c2pa")⟩],
          .error (.pathsAlreadyExist 2 2)) :=
  ⟨rfl, (sidecar_probe_replaces_final_extension exFsFull exOutDir "img"
      (some (some "jpg")) rfl rfl rfl rfl).2.2.1⟩

theorem probe_existing_eq (fs : Fs) (out : RPath) (sc : Bool) (l : List RPath)
    (hn : ∀ p ∈ l, (RPath.fileName p).isSome) :
    probe_existing fs out sc l =
      ((spec_probe fs out sc l).2, .ok (spec_probe fs out sc l).1) := by
  induction l with
  | nil => rfl
  | cons p rest ih =>
    have hrest := ih (fun q hq => hn q (List.mem_cons_of_mem _ hq))
    obtain ⟨nm, hnm⟩ := Option.isSome_iff_exists.mp (hn p (List.mem_cons_self _ _))
    rw [probe_existing, spec_probe]
    simp only [specDest, specSidecarDest, hnm, Option.getD_some]
    rw [hrest]
    rfl

theorem eff_one_paths (s : Sign)
    (h : effectiveOutputCount s.paths.length s.sidecar = 1) :
    s.sidecar = false ∧ ∃ p, s.paths = [p] := by
  rw [effectiveOutputCount] at h
  cases hsc : s.sidecar
  · rw [hsc] at h
    simp at h
    exact ⟨rfl, List.length_eq_one.mp h⟩
  · rw [hsc] at h
    simp at h

/-- C1: for every filesystem and every combination of inputs, output,
sidecar and force flags (with every input carrying a file-name
component, the assumption the spec notes for per-input destinations),
Sign::validate returns exactly the outcome of the decision table of the
spec evaluated on (outputExists, outputIsDirectory,
effectiveOutputCount), including the probing, warning and failure
payloads of every row. -/
theorem validate_matches_spec_decision_table (fs : Fs) (s : Sign)
    (hn : ∀ p ∈ s.paths, (RPath.fileName p).isSome) :
    Sign.validate fs s = spec_plan fs s := by
  have hcount : (if s.sidecar then s.paths.length * 2 else s.paths.length)
      = effectiveOutputCount s.paths.length s.sidecar := by
    rw [effectiveOutputCount]
    cases s.sidecar <;> simp
  simp only [Sign.validate, spec_plan, hcount]
  cases hE : fs.pathExists s.output <;> cases hD : fs.isDir s.output <;>
    rcases hsplit : effectiveOutputCount s.paths.length s.sidecar with _ | _ | m
  -- (missing, not a directory, 0)
  · rfl
  -- (missing, not a directory, 1): the extension check row
  · obtain ⟨hsc, p, hp⟩ := eff_one_paths s hsplit
    rw [hp, hsc]
    by_cases hie : ext_normal p = ext_normal s.output <;> simp [hie]
  -- (missing, not a directory, at least 2)
  · rfl
  -- (missing, reported a directory, any): invariant-violation row
  · rfl
  · rfl
  · rfl
  -- (existing, not a directory, 0)
  · rfl
  -- (existing, not a directory, 1): the force row
  · cases hF : s.force <;> simp [hF]
  -- (existing, not a directory, at least 2): must-be-folder row
  · rfl
  -- (existing directory, 0)
  · rfl
  -- (existing directory, 1): the single-destination probe row
  · obtain ⟨hsc, p, hp⟩ := eff_one_paths s hsplit
    rw [hp] at hn ⊢
    obtain ⟨nm, hnm⟩ :=
      Option.isSome_iff_exists.mp (hn p (List.mem_cons_self _ _))
    cases hF : s.force
    · simp [hF, hnm, specDest]
    · simp [hF]
  -- (existing directory, at least 2): the probe-every-destination row
  · cases hF : s.force
    · rw [probe_existing_eq fs s.output s.sidecar s.paths hn]
      simp [hF]
    · simp [hF]

/-- Witness for C1: the table equality at a concrete filesystem where
everything exists, one input with sidecar enabled. -/
theorem validate_matches_spec_decision_table_witness :
    (∀ p ∈ [exIn], (RPath.fileName p).isSome)
    ∧ Sign.validate exFsFull ⟨[exIn], exOutDir, true, false⟩
        = spec_plan exFsFull ⟨[exIn], exOutDir, true, false⟩ :=
  ⟨by decide,
    validate_matches_spec_decision_table exFsFull
      ⟨[exIn], exOutDir, true, false⟩ (by decide)⟩

theorem sign_loop_eq (signF : RPath → RPath → Except String Unit)
    (output : RPath) (isDir : Bool) (l : List RPath)
    (hn : ∀ p ∈ l, isDir = true → (RPath.fileName p).isSome) :
    sign_loop signF output isDir l = .ok
      (l.map (fun p => (p,
        if isDir then RPath.join output ((RPath.fileName p).getD ⟨"", none⟩)
        else output)),
       l.filterMap (fun p =>
        match signF p
          (if isDir then RPath.join output ((RPath.fileName p).getD ⟨"", none⟩)
           else output) with
        | .error m => some (p, m)
        | .ok _ => none)) := by
  induction l with
  | nil => rfl
  | cons p rest ih =>
    have hrest := ih (fun q hq => hn q (List.mem_cons_of_mem _ hq))
    have hp := hn p (List.mem_cons_self _ _)
    cases hD : isDir with
    | false =>
      subst hD
      rw [sign_loop, dest_for]
      simp only [if_neg (by simp : ¬ (false = true))]
      rw [hrest]
      cases hs : signF p output <;> simp [List.filterMap_cons, hs]
    | true =>
      subst hD
      obtain ⟨nm, hnm⟩ := Option.isSome_iff_exists.mp (hp rfl)
      rw [sign_loop, dest_for]
      simp only [if_pos rfl, hnm]
      rw [hrest]
      cases hs : signF p (RPath.join output nm) <;>
        simp [List.filterMap_cons, hs, hnm]

/-- C2: whenever planning succeeds and the trust and verify settings
load, Sign::execute attempts each input exactly once, in declaration
order, at its planned destination; a per-input signing failure is
recorded with that input path and does not abort the remaining inputs;
the run succeeds exactly when no input failed, and otherwise fails with
the aggregate failed/total count. (The file-name assumption is needed
only when the output is a directory.) -/
theorem execute_per_input_isolation_and_aggregate (env : ExecEnv) (s : Sign)
    (isDir : Bool) (warns : List RPath)
    (hv : Sign.validate env.fs s = (warns, .ok isDir))
    (ht : env.trustOk = true) (hset : env.settingsOk = true)
    (hn : ∀ p ∈ s.paths, isDir = true → (RPath.fileName p).isSome) :
    let dstOf : RPath → RPath := fun p =>
      if isDir then RPath.join s.output ((RPath.fileName p).getD ⟨"", none⟩)
      else s.output
    let errOf : RPath → Option (RPath × String) := fun p =>
      match env.signFile p (dstOf p) with
      | .error m => some (p, m)
      | .ok _ => none
    sign_loop env.signFile s.output isDir s.paths
      = .ok (s.paths.map (fun p => (p, dstOf p)), s.paths.filterMap errOf)
    ∧ (Sign.execute env s = .ok () ↔ s.paths.filterMap errOf = [])
    ∧ (s.paths.filterMap errOf ≠ [] →
        Sign.execute env s
          = .error (.aggregate (s.paths.filterMap errOf).length
              s.paths.length)) := by
  intro dstOf errOf
  have hloop := sign_loop_eq env.signFile s.output isDir s.paths hn
  refine ⟨hloop, ?_, ?_⟩
  · rw [Sign.execute, hv]
    simp only [ht, hset, if_pos rfl, hloop]
    cases hemp : (s.paths.filterMap errOf).isEmpty
    · simp only [show s.paths.filterMap errOf ≠ [] from by
        intro hc; rw [hc] at hemp; exact Bool.noConfusion hemp]
      simp [hemp]
    · simp [List.isEmpty_iff.mp hemp, hemp]
  · intro hne
    rw [Sign.execute, hv]
    simp only [ht, hset, if_pos rfl, hloop]
    simp [List.isEmpty_iff, hne]

/-- Witness for C2: a single input signed successfully on an empty
filesystem; the success equivalence at that input. -/
theorem execute_per_input_isolation_and_aggregate_witness :
    Sign.validate exFsEmpty ⟨[exIn], exOut, false, false⟩ = ([], .ok false)
    ∧ Sign.execute ⟨exFsEmpty, true, true, fun _ _ => .ok ()⟩
        ⟨[exIn], exOut, false, false⟩ = .ok () := by
  refine ⟨rfl, ?_⟩
  have h := execute_per_input_isolation_and_aggregate
    ⟨exFsEmpty, true, true, fun _ _ => .ok ()⟩ ⟨[exIn], exOut, false, false⟩
    false [] rfl rfl rfl (fun p hp hc => Bool.noConfusion hc)
  exact h.2.1.mpr rfl

/-- C8: the safety claim fails in the code: validate() can succeed and
report the output as a directory without probing any input (here: the
output did not exist and is created, so no per-input destination is
checked), after which the execute loop reaches the file_name unwrap on
an input with no file-name component and panics. The code comment that
the unwrap is safe because of prior validation is contradicted. -/
theorem validated_directory_unwrap_panics :
    Sign.validate exFsEmpty ⟨[exIn, exNoName], exOutDir, false, false⟩
      = ([], .ok true)
    ∧ Sign.execute ⟨exFsEmpty, true, true, fun _ _ => .ok ()⟩
        ⟨[exIn, exNoName], exOutDir, false, false⟩ = .error .panicked
    ∧ RPath.fileName exNoName = none :=
  ⟨rfl, rfl, rfl⟩

theorem resolve_ingredients_pres (env : SignEnv) (bp : RPath)
    (l : List IngredientSource) :
    ∀ (m m2 : Manifest), resolve_ingredients env bp m l = .ok m2 →
      m2.claim_generator = m.claim_generator ∧ m2.parent = m.parent
        ∧ m2.embedMode = m.embedMode := by
  induction l with
  | nil =>
    intro m m2 h
    rw [resolve_ingredients] at h
    cases h
    exact ⟨rfl, rfl, rfl⟩
  | cons hd tl ih =>
    intro m m2 h
    cases hd with
    | ingredient i =>
      rw [resolve_ingredients] at h
      exact ih (m.add_ingredient { i with basePath := some bp }) m2 h
    | path p =>
      rw [resolve_ingredients] at h
      cases hli : load_ingredient env
          (if p.isAbs then p else RPath.joinP bp p) with
      | error e => rw [hli] at h; exact Except.noConfusion h
      | ok ing => rw [hli] at h; exact ih (m.add_ingredient ing) m2 h

theorem ingredients_step_pres (env : SignEnv) (bp : RPath)
    (osrcs : Option (List IngredientSource)) (m m2 : Manifest)
    (h : ingredients_step env bp m osrcs = .ok m2) :
    m2.claim_generator = m.claim_generator ∧ m2.parent = m.parent
      ∧ m2.embedMode = m.embedMode := by
  cases osrcs with
  | none =>
    rw [ingredients_step] at h
    cases h
    exact ⟨rfl, rfl, rfl⟩
  | some l => exact resolve_ingredients_pres env bp l m m2 h

theorem explicit_parent_step_none (env : SignEnv) (m m2 : Manifest)
    (h : explicit_parent_step env none m = .ok m2) : m2 = m := by
  rw [explicit_parent_step] at h
  cases h
  rfl

theorem explicit_parent_step_some (env : SignEnv) (pp : RPath) (m m2 : Manifest)
    (h : explicit_parent_step env (some pp) m = .ok m2) :
    ∃ ing, load_ingredient env pp = .ok ing ∧ m2 = m.set_parent ing := by
  rw [explicit_parent_step] at h
  cases hli : load_ingredient env pp with
  | error e => rw [hli] at h; exact Except.noConfusion h
  | ok ing =>
    rw [hli] at h
    cases h
    exact ⟨ing, rfl, rfl⟩

theorem implicit_parent_step_inv (env : SignEnv) (src : RPath) (m m2 : Manifest)
    (h : implicit_parent_step env src m = .ok m2) :
    (m.parent.isSome ∧ m2 = m)
    ∨ (m.parent = none ∧ ∃ si, env.ingredientFromFile src = .ok si ∧
        m2 = (if si.manifestData.isSome then m.set_parent si else m)) := by
  rw [implicit_parent_step] at h
  cases hp : m.parent with
  | some x =>
    rw [hp] at h
    simp at h
    subst h
    exact Or.inl ⟨by simp [hp], rfl⟩
  | none =>
    rw [hp] at h
    simp at h
    cases hsi : env.ingredientFromFile src with
    | error e => rw [hsi] at h; exact Except.noConfusion h
    | ok si =>
      rw [hsi] at h
      cases h
      exact Or.inr ⟨rfl, si, rfl, rfl⟩

theorem assemble_manifest_inv (env : SignEnv) (source : InputSource)
    (sidecar : Bool) (parentOpt : Option RPath) (src : RPath) (m : Manifest)
    (json : String) (sc : SignConfig) (em : ExtendedManifest)
    (h1 : env.resolve source = .ok json)
    (h2 : env.parseSignConfig json = .ok sc)
    (h3 : env.parseManifest json = .ok em)
    (hm : assemble_manifest env source sidecar parentOpt src = .ok m) :
    ∃ bp m3 m4 m5,
      compute_base_path env source = .ok bp
      ∧ ingredients_step env bp
          (({ em.manifest with claim_generator :=
              if (starts_with em.manifest.claim_generator "c2pa/") then
                env.toolGenerator
              else em.manifest.claim_generator ++ " " ++ env.toolGenerator } :
            Manifest).with_base_path bp)
          em.ingredients = .ok m3
      ∧ explicit_parent_step env parentOpt m3 = .ok m4
      ∧ implicit_parent_step env src m4 = .ok m5
      ∧ m = apply_embed_mode source sidecar m5 := by
  simp only [assemble_manifest, h1, h2, h3] at hm
  split at hm
  · exact Except.noConfusion hm
  next bp hbp =>
    split at hm
    · exact Except.noConfusion hm
    next m3 hing =>
      split at hm
      · exact Except.noConfusion hm
      next m4 hpar =>
        split at hm
        · exact Except.noConfusion hm
        next m5 himp =>
          cases hm
          exact ⟨bp, m3, m4, m5, hbp, hing, hpar, himp, rfl⟩

theorem apply_embed_mode_generator (source : InputSource) (sidecar : Bool)
    (m : Manifest) :
    (apply_embed_mode source sidecar m).claim_generator = m.claim_generator := by
  cases source <;> cases sidecar <;> rfl

theorem apply_embed_mode_parent (source : InputSource) (sidecar : Bool)
    (m : Manifest) :
    (apply_embed_mode source sidecar m).parent = m.parent := by
  cases source <;> cases sidecar <;> rfl

theorem generator_rewrite_general (env : SignEnv) (source : InputSource)
    (sidecar : Bool) (parentOpt : Option RPath) (src : RPath) (m : Manifest)
    (json : String) (sc : SignConfig) (em : ExtendedManifest)
    (h1 : env.resolve source = .ok json)
    (h2 : env.parseSignConfig json = .ok sc)
    (h3 : env.parseManifest json = .ok em)
    (hm : assemble_manifest env source sidecar parentOpt src = .ok m) :
    m.claim_generator =
      (if (starts_with em.manifest.claim_generator "c2pa/") then env.toolGenerator
        else em.manifest.claim_generator ++ " " ++ env.toolGenerator) := by
  obtain ⟨bp, m3, m4, m5, hbp, hing, hpar, himp, hm5⟩ :=
    assemble_manifest_inv env source sidecar parentOpt src m json sc em
      h1 h2 h3 hm
  have g3 := (ingredients_step_pres env bp _ _ _ hing).1
  have g4 : m4.claim_generator = m3.claim_generator := by
    cases parentOpt with
    | none => rw [explicit_parent_step_none env m3 m4 hpar]
    | some pp =>
      obtain ⟨ing, hli, heq⟩ := explicit_parent_step_some env pp m3 m4 hpar
      rw [heq]
      rfl
  have g5 : m5.claim_generator = m4.claim_generator := by
    rcases implicit_parent_step_inv env src m4 m5 himp with
      ⟨hps, heq⟩ | ⟨hps, si, hsi, heq⟩
    · rw [heq]
    · rw [heq]
      cases hmd : si.manifestData.isSome <;> simp [hmd, Manifest.set_parent]
  dsimp only [Manifest.with_base_path] at g3
  rw [hm5, apply_embed_mode_generator, g5, g4, g3]

/-- A parsed manifest definition carrying the library default generator
and no parent. -/
def exManifestDefault : Manifest := ⟨"c2pa/unspecified", none, [], none, .embedded⟩

/-- A parsed manifest definition with a custom generator and no parent. -/
def exManifestCustom : Manifest := ⟨"my-app/1.0", none, [], none, .embedded⟩

/-- A parent ingredient supplied by the manifest definition itself. -/
def exDefParent : Ingredient := ⟨"definition-parent", none, none⟩

/-- An ingredient derived from a source asset with no embedded manifest
data. -/
def exSourceIng : Ingredient := ⟨"source-asset", none, none⟩

/-- A parsed manifest definition that itself carries a parent reference. -/
def exManifestWithParent : Manifest := ⟨"gen", some exDefParent, [], none, .embedded⟩

/-- A concrete signing environment around a fixed parsed definition. -/
def mkSignEnv (em : ExtendedManifest) : SignEnv :=
  { toolGenerator := "c2patool/0.9.12"
    resolve := fun _ => .ok "json"
    parseSignConfig := fun _ => .ok ⟨none⟩
    parseManifest := fun _ => .ok em
    canonicalize := fun p => .ok p
    cwd := .base true "cwd" none
    readJsonIngredient := fun _ => .ok exSourceIng
    ingredientFromFile := fun _ => .ok exSourceIng
    embed := fun _ _ _ => .ok () }

/-- C3: the assembled generator field is the parsed generator rewritten:
replaced by the tool tag when it starts with the reserved library prefix
c2pa/, else the tool tag appended after a single space; in particular a
definition with generator exactly c2pa/unspecified assembles to exactly
the tool tag, and my-app/1.0 assembles to my-app/1.0 followed by the
tool tag. -/
theorem generator_rewrite_claim :
    (∀ (env : SignEnv) (source : InputSource) (sidecar : Bool)
        (parentOpt : Option RPath) (src : RPath) (m : Manifest)
        (json : String) (sc : SignConfig) (em : ExtendedManifest),
      env.resolve source = .ok json →
      env.parseSignConfig json = .ok sc →
      env.parseManifest json = .ok em →
      assemble_manifest env source sidecar parentOpt src = .ok m →
      m.claim_generator =
        (if (starts_with em.manifest.claim_generator "c2pa/") then
          env.toolGenerator
        else em.manifest.claim_generator ++ " " ++ env.toolGenerator))
    ∧ (assemble_manifest (mkSignEnv ⟨exManifestDefault, none⟩) (.url "u")
        false none exIn).map (fun mm => mm.claim_generator)
        = .ok "c2patool/0.9.12"
    ∧ (assemble_manifest (mkSignEnv ⟨exManifestCustom, none⟩) (.url "u")
        false none exIn).map (fun mm => mm.claim_generator)
        = .ok "my-app/1.0 c2patool/0.9.12" :=
  ⟨generator_rewrite_general, by rfl, by rfl⟩

/-- Witness for C3: the general conjunct applied at the concrete
environment whose definition generator is c2pa/unspecified. -/
theorem generator_rewrite_claim_witness :
    assemble_manifest (mkSignEnv ⟨exManifestDefault, none⟩) (.url "u")
        false none exIn
      = .ok { claim_generator := "c2patool/0.9.12", parent := none,
              ingredients := [], basePath := some (.base true "cwd" none),
              embedMode := .embeddedWithRemote "u" }
    ∧ ({ claim_generator := "c2patool/0.9.12", parent := none,
          ingredients := [], basePath := some (.base true "cwd" none),
          embedMode := .embeddedWithRemote "u" } : Manifest).claim_generator
        = (if (starts_with exManifestDefault.claim_generator "c2pa/") then
            (mkSignEnv ⟨exManifestDefault, none⟩).toolGenerator
          else exManifestDefault.claim_generator ++ " "
            ++ (mkSignEnv ⟨exManifestDefault, none⟩).toolGenerator) :=
  ⟨by rfl,
    generator_rewrite_claim.1 (mkSignEnv ⟨exManifestDefault, none⟩) (.url "u")
      false none exIn
      { claim_generator := "c2patool/0.9.12", parent := none,
        ingredients := [], basePath := some (.base true "cwd" none),
        embedMode := .embeddedWithRemote "u" }
      "json" ⟨none⟩ ⟨exManifestDefault, none⟩ rfl rfl rfl rfl⟩

/-- C5: the embedding mode of the assembled manifest is exactly: URL
definition source with sidecar gives a remote manifest referencing the
URL; URL source without sidecar gives an embedded manifest carrying the
URL as remote reference; local-file source with sidecar gives a
sidecar-only manifest; local-file source without sidecar leaves the
embedding mode of the parsed definition untouched (no call is made). -/
theorem embed_mode_selection (env : SignEnv) (source : InputSource)
    (sidecar : Bool) (parentOpt : Option RPath) (src : RPath) (m : Manifest)
    (json : String) (sc : SignConfig) (em : ExtendedManifest)
    (h1 : env.resolve source = .ok json)
    (h2 : env.parseSignConfig json = .ok sc)
    (h3 : env.parseManifest json = .ok em)
    (hm : assemble_manifest env source sidecar parentOpt src = .ok m) :
    (∀ u, source = .url u → sidecar = true → m.embedMode = .remote u)
    ∧ (∀ u, source = .url u → sidecar = false →
        m.embedMode = .embeddedWithRemote u)
    ∧ (∀ pth, source = .path pth → sidecar = true →
        m.embedMode = .sidecarOnly)
    ∧ (∀ pth, source = .path pth → sidecar = false →
        m.embedMode = em.manifest.embedMode) := by
  obtain ⟨bp, m3, m4, m5, hbp, hing, hpar, himp, hm5⟩ :=
    assemble_manifest_inv env source sidecar parentOpt src m json sc em
      h1 h2 h3 hm
  have e3 := (ingredients_step_pres env bp _ _ _ hing).2.2
  dsimp only [Manifest.with_base_path] at e3
  have e4 : m4.embedMode = m3.embedMode := by
    cases parentOpt with
    | none => rw [explicit_parent_step_none env m3 m4 hpar]
    | some pp =>
      obtain ⟨ing, hli, heq⟩ := explicit_parent_step_some env pp m3 m4 hpar
      rw [heq]
      rfl
  have e5 : m5.embedMode = m4.embedMode := by
    rcases implicit_parent_step_inv env src m4 m5 himp with
      ⟨hps, heq⟩ | ⟨hps, si, hsi, heq⟩
    · rw [heq]
    · rw [heq]
      cases hmd : si.manifestData.isSome <;> simp [hmd, Manifest.set_parent]
  subst hm5
  refine ⟨?_, ?_, ?_, ?_⟩
  · intro u hsrc hsc
    subst hsrc
    subst hsc
    rfl
  · intro u hsrc hsc
    subst hsrc
    subst hsc
    rfl
  · intro pth hsrc hsc
    subst hsrc
    subst hsc
    rfl
  · intro pth hsrc hsc
    subst hsrc
    subst hsc
    show m5.embedMode = em.manifest.embedMode
    rw [e5, e4, e3]

/-- Witness for C5: a URL definition source without sidecar assembles to
an embedded manifest carrying the URL as remote reference. -/
theorem embed_mode_selection_witness :
    assemble_manifest (mkSignEnv ⟨exManifestDefault, none⟩) (.url "u")
        false none exIn
      = .ok { claim_generator := "c2patool/0.9.12", parent := none,
              ingredients := [], basePath := some (.base true "cwd" none),
              embedMode := .embeddedWithRemote "u" }
    ∧ ({ claim_generator := "c2patool/0.9.12", parent := none,
          ingredients := [], basePath := some (.base true "cwd" none),
          embedMode := .embeddedWithRemote "u" } : Manifest).embedMode
        = .embeddedWithRemote "u" :=
  ⟨by rfl,
    (embed_mode_selection (mkSignEnv ⟨exManifestDefault, none⟩) (.url "u")
      false none exIn
      { claim_generator := "c2patool/0.9.12", parent := none,
        ingredients := [], basePath := some (.base true "cwd" none),
        embedMode := .embeddedWithRemote "u" }
      "json" ⟨none⟩ ⟨exManifestDefault, none⟩ rfl rfl rfl (by rfl)).2.1
      "u" rfl rfl⟩

/-- Counterexample for C4: a manifest definition that itself carries a
parent reference, a source asset with no embedded manifest data, and no
explicit parent; the assembled manifest nevertheless has a parent,
contradicting the final clause of the claim as stated. -/
theorem implicit_parent_no_data_counterexample :
    (mkSignEnv ⟨exManifestWithParent, none⟩).ingredientFromFile exIn
      = .ok exSourceIng
    ∧ exSourceIng.manifestData = none
    ∧ assemble_manifest (mkSignEnv ⟨exManifestWithParent, none⟩) (.url "u")
        false none exIn
      = .ok { claim_generator := "gen c2patool/0.9.12",
              parent := some exDefParent, ingredients := [],
              basePath := some (.base true "cwd" none),
              embedMode := .embeddedWithRemote "u" }
    ∧ some exDefParent ≠ (none : Option Ingredient) :=
  ⟨rfl, rfl, by rfl, by decide⟩

/-- C4 (amended): an explicit parent path is loaded and set as the
parent; otherwise, when the parsed definition resolves no parent of its
own, the source asset is inspected and becomes the parent exactly when
it carries embedded manifest data, and the assembled manifest has no
parent when it does not. (The amendment adds the condition that the
definition itself supplies no parent; the counterexample shows the claim
fails without it.) -/
theorem parent_resolution (env : SignEnv) (source : InputSource)
    (sidecar : Bool) (parentOpt : Option RPath) (src : RPath) (m : Manifest)
    (json : String) (sc : SignConfig) (em : ExtendedManifest)
    (h1 : env.resolve source = .ok json)
    (h2 : env.parseSignConfig json = .ok sc)
    (h3 : env.parseManifest json = .ok em)
    (hm : assemble_manifest env source sidecar parentOpt src = .ok m) :
    (∀ pp, parentOpt = some pp →
        ∃ ing, load_ingredient env pp = .ok ing ∧ m.parent = some ing)
    ∧ (parentOpt = none → em.manifest.parent = none →
        ∀ si, env.ingredientFromFile src = .ok si →
          m.parent = (if si.manifestData.isSome then some si else none)) := by
  obtain ⟨bp, m3, m4, m5, hbp, hing, hpar, himp, hm5⟩ :=
    assemble_manifest_inv env source sidecar parentOpt src m json sc em
      h1 h2 h3 hm
  have hp3 := (ingredients_step_pres env bp _ _ _ hing).2.1
  dsimp only [Manifest.with_base_path] at hp3
  constructor
  · intro pp hpp
    subst hpp
    obtain ⟨ing, hli, heq4⟩ := explicit_parent_step_some env pp m3 m4 hpar
    rcases implicit_parent_step_inv env src m4 m5 himp with
      ⟨hps, heq5⟩ | ⟨hnone, si, hsi, heq5⟩
    · refine ⟨ing, hli, ?_⟩
      rw [hm5, apply_embed_mode_parent, heq5, heq4]
      rfl
    · rw [heq4] at hnone
      exact absurd hnone (by simp [Manifest.set_parent])
  · intro hpp hemp si hsi
    subst hpp
    have heq4 : m4 = m3 := explicit_parent_step_none env m3 m4 hpar
    have hp4 : m4.parent = none := by rw [heq4, hp3, hemp]
    rcases implicit_parent_step_inv env src m4 m5 himp with
      ⟨hps, heq5⟩ | ⟨hnone, si2, hsi2, heq5⟩
    · rw [hp4] at hps
      exact absurd hps (by simp)
    · have hsieq : si2 = si := by
        have h := hsi2.symm.trans hsi
        exact (Except.ok.injEq _ _).mp h
      subst hsieq
      rw [hm5, apply_embed_mode_parent, heq5]
      cases hmd : si2.manifestData.isSome <;>
        simp [hmd, Manifest.set_parent, hp4]

/-- Witness for C4: a definition with no parent, a source asset without
manifest data, no explicit parent; the assembled manifest has no
parent. -/
theorem parent_resolution_witness :
    assemble_manifest (mkSignEnv ⟨exManifestDefault, none⟩) (.url "u")
        false none exIn
      = .ok { claim_generator := "c2patool/0.9.12", parent := none,
              ingredients := [], basePath := some (.base true "cwd" none),
              embedMode := .embeddedWithRemote "u" }
    ∧ ({ claim_generator := "c2patool/0.9.12", parent := none,
          ingredients := [], basePath := some (.base true "cwd" none),
          embedMode := .embeddedWithRemote "u" } : Manifest).parent
        = (if exSourceIng.manifestData.isSome then some exSourceIng
            else none) :=
  ⟨by rfl,
    (parent_resolution (mkSignEnv ⟨exManifestDefault, none⟩) (.url "u")
      false none exIn
      { claim_generator := "c2patool/0.9.12", parent := none,
        ingredients := [], basePath := some (.base true "cwd" none),
        embedMode := .embeddedWithRemote "u" }
      "json" ⟨none⟩ ⟨exManifestDefault, none⟩ rfl rfl rfl (by rfl)).2
      rfl rfl exSourceIng rfl⟩

theorem parent_some_of_extension {p : RPath} {e : Option String}
    (h : p.extension = some e) : ∃ b, p.parent = some b := by
  have hf : p.fileName.isSome = true := by
    rw [RPath.extension] at h
    cases hfn : p.fileName
    · rw [hfn] at h
      exact Option.noConfusion h
    · simp
  cases p with
  | base a t nm =>
    exact ⟨RPath.dirOf (RPath.base a t nm), by simp [RPath.parent, hf]⟩
  | dirOf q => simp [RPath.fileName] at hf
  | join d n => exact ⟨d, rfl⟩
  | joinP d r =>
    exact ⟨RPath.dirOf (d.joinP r), by simp [RPath.parent, hf]⟩

/-- C7: load_ingredient deserializes a json-extension path from the file
and sets its resource base path to the containing directory of the
file, returns the asset-file inspection for any other extension, and
propagates the failure of either collaborator as an error value. -/
theorem load_ingredient_json_vs_asset (env : SignEnv) (p : RPath) :
    (p.extension = some (some "json") →
        load_ingredient env p
          = (env.readJsonIngredient p).map
              (fun i => { i with basePath := p.parent }))
    ∧ (p.extension ≠ some (some "json") →
        load_ingredient env p = env.ingredientFromFile p)
    ∧ (∀ msg, p.extension = some (some "json") →
        env.readJsonIngredient p = .error msg →
        load_ingredient env p = .error msg) := by
  refine ⟨?_, ?_, ?_⟩
  · intro h
    obtain ⟨b, hb⟩ := parent_some_of_extension h
    rw [load_ingredient, if_pos h, hb]
    cases hr : env.readJsonIngredient p <;> simp [Except.map, hb]
  · intro h
    rw [load_ingredient, if_neg h]
  · intro msg h herr
    rw [load_ingredient, if_pos h, herr]

/-- A concrete ingredient-description path with extension json. -/
def exJsonPath : RPath :=
  .base false "ingjson" (some ⟨"ingredient", some (some "json")⟩)

/-- Witness for C7: the json branch at a concrete json path and
environment. -/
theorem load_ingredient_json_vs_asset_witness :
    RPath.extension exJsonPath = some (some "json")
    ∧ load_ingredient (mkSignEnv ⟨exManifestDefault, none⟩) exJsonPath
        = ((mkSignEnv ⟨exManifestDefault, none⟩).readJsonIngredient
            exJsonPath).map
            (fun i => { i with basePath := exJsonPath.parent }) :=
  ⟨rfl,
    (load_ingredient_json_vs_asset (mkSignEnv ⟨exManifestDefault, none⟩)
      exJsonPath).1 rfl⟩
